import Mathlib

/-!
Verification of the morskamary competence-mapping engine.

The Python module `src/competence_mapper.py` maintains two insertion-ordered
dictionaries (competences and micro-credentials keyed by id) and offers pure
analytical queries: filtering by axis/level, sector-wide competence union,
gap analysis, pathway ordering by average competence level, and a summary.

Embedding choices:
* Python `dict` (insertion-ordered, last-write-wins) is an association list
  `List (String × α)`; overwriting keeps the original position, a fresh key
  is appended at the end, exactly as CPython dicts behave.
* Python `set` is a duplicate-free `List String`; the iteration order of a
  CPython set is unspecified, so all set-level claims are stated up to
  membership / `toFinset` equality.
* `str.lower()` is modelled on the ASCII range (the repository only uses
  ASCII sector strings).
* Python float averaging of small integer ranks is modelled in `ℚ`.
* `list.sort` (Timsort, stable, ascending by key) is modelled by
  `List.mergeSort`, which is stable and sorts ascending.
-/

namespace Morskamary

/-- Tripartite Model of Blue Dynamics axes, from `src/core.py`. -/
inductive BlueDynamicsAxis where
  | MARINE
  | MARITIME
  | OCEANIC
deriving DecidableEq

/-- Serialization short code of an axis (`"M"`, `"T"`, `"O"`). -/
def BlueDynamicsAxis.code : BlueDynamicsAxis → String
  | .MARINE => "M"
  | .MARITIME => "T"
  | .OCEANIC => "O"

/-- Enum member name of an axis, as Python `axis.name`. -/
def BlueDynamicsAxis.name : BlueDynamicsAxis → String
  | .MARINE => "MARINE"
  | .MARITIME => "MARITIME"
  | .OCEANIC => "OCEANIC"

/-- Iteration order of `BlueDynamicsAxis` members (Python definition order). -/
def BlueDynamicsAxis.all : List BlueDynamicsAxis :=
  [.MARINE, .MARITIME, .OCEANIC]

/-- Competence proficiency levels, from `src/core.py`. -/
inductive CompetenceLevel where
  | FOUNDATIONAL
  | INTERMEDIATE
  | ADVANCED
  | EXPERT
deriving DecidableEq

/-- Integer rank of a level (the Python enum value 1..4). -/
def CompetenceLevel.value : CompetenceLevel → Nat
  | .FOUNDATIONAL => 1
  | .INTERMEDIATE => 2
  | .ADVANCED => 3
  | .EXPERT => 4

/-- Enum member name of a level, as Python `level.name`. -/
def CompetenceLevel.name : CompetenceLevel → String
  | .FOUNDATIONAL => "FOUNDATIONAL"
  | .INTERMEDIATE => "INTERMEDIATE"
  | .ADVANCED => "ADVANCED"
  | .EXPERT => "EXPERT"

/-- Iteration order of `CompetenceLevel` members (Python definition order). -/
def CompetenceLevel.all : List CompetenceLevel :=
  [.FOUNDATIONAL, .INTERMEDIATE, .ADVANCED, .EXPERT]

/-- A single competence, from the `Competence` dataclass in `src/core.py`. -/
structure Competence where
  id : String
  name : String
  description : String
  axis : BlueDynamicsAxis
  level : CompetenceLevel
  keywords : List String
deriving DecidableEq

/-- A stackable micro-credential, from the `MicroCredential` dataclass. -/
structure MicroCredential where
  id : String
  title : String
  competences : List String
  description : String
  sector : String
deriving DecidableEq

/-- Lookup in an insertion-ordered dictionary, as Python `d[k]` / `k in d`. -/
def dictGet (d : List (String × α)) (k : String) : Option α :=
  (d.find? (fun p => decide (p.1 = k))).map (fun p => p.2)

/-- Store `v` under key `k`: overwrite in place when the key is present,
append at the end otherwise — CPython dict assignment semantics. -/
def dictInsert (d : List (String × α)) (k : String) (v : α) : List (String × α) :=
  if d.any (fun p => decide (p.1 = k)) then
    d.map (fun p => if p.1 = k then (k, v) else p)
  else
    d ++ [(k, v)]

/-- The values of a dictionary in insertion order, as Python `d.values()`. -/
def dictValues (d : List (String × α)) : List α :=
  d.map (fun p => p.2)

/-- ASCII lowering of one character, modelling `str.lower` on the repository
data (which is all ASCII). -/
def pyLowerChar (c : Char) : Char :=
  if 65 ≤ c.toNat ∧ c.toNat ≤ 90 then Char.ofNat (c.toNat + 32) else c

/-- ASCII `str.lower()`. -/
def pyLower (s : String) : String :=
  String.mk (s.data.map pyLowerChar)

/-- Add one element to a duplicate-free list modelling a Python set. -/
def pyInsert (s : List String) (x : String) : List String :=
  if x ∈ s then s else s ++ [x]

/-- The Python set built from a list, as `set(l)`. -/
def pySetOf (l : List String) : List String :=
  l.foldl pyInsert []

/-- The mapper state: two insertion-ordered dictionaries, from
`CompetenceMapper.__init__`. -/
structure CompetenceMapper where
  competences : List (String × Competence)
  credentials : List (String × MicroCredential)
deriving DecidableEq

/-- Method `add_competence`: insert/overwrite by `competence.id`. -/
def add_competence (m : CompetenceMapper) (competence : Competence) : CompetenceMapper :=
  { m with competences := dictInsert m.competences competence.id competence }

/-- Method `add_credentials`: insert/overwrite by `credential.id`. -/
def add_credentials (m : CompetenceMapper) (credential : MicroCredential) : CompetenceMapper :=
  { m with credentials := dictInsert m.credentials credential.id credential }

/-- Method `get_competences_by_axis`: stored competences with the given axis,
in insertion order. -/
def get_competences_by_axis (m : CompetenceMapper) (axis : BlueDynamicsAxis) : List Competence :=
  (dictValues m.competences).filter (fun c => decide (c.axis = axis))

/-- Method `get_competences_by_level`: stored competences with the given
level, in insertion order. -/
def get_competences_by_level (m : CompetenceMapper) (level : CompetenceLevel) : List Competence :=
  (dictValues m.competences).filter (fun c => decide (c.level = level))

/-- Method `get_sector_competences`: the union (as a Python set) of the
competence ids of every credential whose sector matches case-insensitively. -/
def get_sector_competences (m : CompetenceMapper) (sector : String) : List String :=
  ((dictValues m.credentials).filter
      (fun cred => decide (pyLower cred.sector = pyLower sector))).foldl
    (fun acc cred => cred.competences.foldl pyInsert acc) []

/-- Result record of `analyze_competence_gaps`; `by_level` is the Python dict
as an insertion-ordered entry list. -/
structure GapResult where
  available : List String
  missing : List String
  by_level : List (String × List String)
deriving DecidableEq

/-- Method `analyze_competence_gaps`. -/
def analyze_competence_gaps (m : CompetenceMapper) (available : List String)
    (required_sector : String) : GapResult :=
  let required := pySetOf (get_sector_competences m required_sector)
  let available_set := pySetOf available
  let missing := required.filter (fun cid => decide (¬ cid ∈ available_set))
  { available := available_set.filter (fun cid => decide (cid ∈ required)),
    missing := missing,
    by_level := CompetenceLevel.all.filterMap (fun level =>
      let level_missing := missing.filter (fun cid =>
        match dictGet m.competences cid with
        | some c => decide (c.level = level)
        | none => false)
      if level_missing = [] then none else some (level.name, level_missing)) }

/-- The integer ranks of the referenced competences that resolve in the
store, in reference order — the generator inside the `sum(...)` of
`suggest_credential_pathway` (`if cid in self.competences`). -/
def resolvedLevelRanks (m : CompetenceMapper) (cred : MicroCredential) : List ℚ :=
  cred.competences.filterMap
    (fun cid => (dictGet m.competences cid).map (fun c => (c.level.value : ℚ)))

/-- Average competence level of one credential as computed inside
`suggest_credential_pathway`: the resolvable ranks are summed, the divisor is
`max 1 (total number of referenced ids)`. -/
def credAvgLevel (m : CompetenceMapper) (cred : MicroCredential) : ℚ :=
  (resolvedLevelRanks m cred).sum / (max 1 cred.competences.length : ℚ)

/-- The `credential_levels` list of `suggest_credential_pathway` before
sorting: every stored credential paired with its average level. -/
def credentialLevels (m : CompetenceMapper) : List (MicroCredential × ℚ) :=
  (dictValues m.credentials).map (fun cred => (cred, credAvgLevel m cred))

/-- Method `suggest_credential_pathway`: stable ascending sort of the stored
credentials by average level; `starting_level` is accepted but unused. -/
def suggest_credential_pathway (m : CompetenceMapper)
    (starting_level : CompetenceLevel) : List MicroCredential :=
  (((credentialLevels m).mergeSort (fun a b => decide (a.2 ≤ b.2))).map
    (fun p => p.1))

/-- Result record of `get_summary`. -/
structure Summary where
  total_competences : Nat
  total_credentials : Nat
  competences_by_axis : List (String × Nat)
  competences_by_level : List (String × Nat)
  sectors : List String
deriving DecidableEq

/-- Method `get_summary`. -/
def get_summary (m : CompetenceMapper) : Summary :=
  { total_competences := m.competences.length,
    total_credentials := m.credentials.length,
    competences_by_axis := BlueDynamicsAxis.all.map
      (fun axis => (axis.name, (get_competences_by_axis m axis).length)),
    competences_by_level := CompetenceLevel.all.map
      (fun level => (level.name, (get_competences_by_level m level).length)),
    sectors := pySetOf ((dictValues m.credentials).map (fun cred => cred.sector)) }

/-! Seed data: the sample competences of `create_sample_competences` in
`src/core.py` and the demonstration credentials of `main.py`. -/

/-- Sample competence `comp_marine_001` (MARINE, INTERMEDIATE). -/
def compMarine001 : Competence :=
  { id := "comp_marine_001", name := "Marine Ecosystem Understanding",
    description := "Comprehensive understanding of marine biophysical systems, species interactions, and ecosystem dynamics",
    axis := .MARINE, level := .INTERMEDIATE,
    keywords := ["marine biology", "ecology", "biodiversity", "fisheries"] }

/-- Sample competence `comp_maritime_001` (MARITIME, ADVANCED). -/
def compMaritime001 : Competence :=
  { id := "comp_maritime_001", name := "Maritime Infrastructure Management",
    description := "Management of ports, fleets, grids, and maritime spatial planning (MSP) infrastructure",
    axis := .MARITIME, level := .ADVANCED,
    keywords := ["ports", "maritime spatial planning", "infrastructure", "fleet management"] }

/-- Sample competence `comp_oceanic_001` (OCEANIC, ADVANCED). -/
def compOceanic001 : Competence :=
  { id := "comp_oceanic_001", name := "Ocean Governance and Cooperation",
    description := "Cross-border ocean governance integration, hydrosocial literacy, and transcorporeal responsibility",
    axis := .OCEANIC, level := .ADVANCED,
    keywords := ["governance", "international cooperation", "policy", "sustainability"] }

/-- Demonstration credential `cred_offshore_001` from `main.py`. -/
def credOffshore001 : MicroCredential :=
  { id := "cred_offshore_001", title := "Offshore Energy Operations Specialist",
    competences := ["comp_marine_001", "comp_maritime_001"],
    description := "Micro-credential for professionals in offshore renewable energy",
    sector := "offshore-energy" }

/-- Demonstration credential `cred_ocean_gov_001` from `main.py`. -/
def credOceanGov001 : MicroCredential :=
  { id := "cred_ocean_gov_001", title := "Ocean Governance Practitioner",
    competences := ["comp_oceanic_001"],
    description := "Micro-credential for ocean governance and policy professionals",
    sector := "governance" }

/-- The mapper state after `main.py` loads the three sample competences and
the two demonstration credentials. -/
def seedMapper : CompetenceMapper :=
  add_credentials (add_credentials
    (add_competence (add_competence (add_competence
      { competences := [], credentials := [] }
      compMarine001) compMaritime001) compOceanic001)
    credOffshore001) credOceanGov001

/-! Helper lemmas about the Python-set model. -/

theorem mem_pyInsert {s : List String} {x y : String} :
    y ∈ pyInsert s x ↔ y ∈ s ∨ y = x := by
  unfold pyInsert
  by_cases hx : x ∈ s
  · simp only [if_pos hx]
    constructor
    · exact Or.inl
    · rintro (h | rfl)
      · exact h
      · exact hx
  · simp [if_neg hx]

theorem nodup_pyInsert {s : List String} (h : s.Nodup) (x : String) :
    (pyInsert s x).Nodup := by
  unfold pyInsert
  by_cases hx : x ∈ s
  · simpa [if_pos hx] using h
  · simp [if_neg hx, List.nodup_append, h, hx]

theorem mem_foldl_pyInsert (l : List String) (acc : List String) (y : String) :
    y ∈ l.foldl pyInsert acc ↔ y ∈ acc ∨ y ∈ l := by
  induction l generalizing acc with
  | nil => simp
  | cons a t ih => simp [List.foldl_cons, ih, mem_pyInsert, or_assoc]

theorem nodup_foldl_pyInsert (l : List String) {acc : List String} (h : acc.Nodup) :
    (l.foldl pyInsert acc).Nodup := by
  induction l generalizing acc with
  | nil => simpa
  | cons a t ih => exact ih (nodup_pyInsert h a)

theorem mem_pySetOf {l : List String} {y : String} :
    y ∈ pySetOf l ↔ y ∈ l := by
  unfold pySetOf
  rw [mem_foldl_pyInsert]
  simp

theorem nodup_pySetOf (l : List String) : (pySetOf l).Nodup :=
  nodup_foldl_pyInsert l List.nodup_nil

theorem mem_foldl_update (creds : List MicroCredential) (acc : List String) (y : String) :
    y ∈ creds.foldl (fun a cred => cred.competences.foldl pyInsert a) acc ↔
      y ∈ acc ∨ ∃ cred ∈ creds, y ∈ cred.competences := by
  induction creds generalizing acc with
  | nil => simp
  | cons c t ih => simp [List.foldl_cons, ih, mem_foldl_pyInsert, or_assoc]

theorem nodup_foldl_update (creds : List MicroCredential) {acc : List String}
    (h : acc.Nodup) :
    (creds.foldl (fun a cred => cred.competences.foldl pyInsert a) acc).Nodup := by
  induction creds generalizing acc with
  | nil => simpa
  | cons c t ih => exact ih (nodup_foldl_pyInsert c.competences h)

theorem mem_get_sector_competences {m : CompetenceMapper} {sector cid : String} :
    cid ∈ get_sector_competences m sector ↔
      ∃ cred ∈ dictValues m.credentials,
        pyLower cred.sector = pyLower sector ∧ cid ∈ cred.competences := by
  unfold get_sector_competences
  rw [mem_foldl_update]
  simp only [List.mem_filter, decide_eq_true_eq, List.not_mem_nil, false_or]
  constructor
  · rintro ⟨cred, ⟨hmem, hsec⟩, hcid⟩
    exact ⟨cred, hmem, hsec, hcid⟩
  · rintro ⟨cred, hmem, hsec, hcid⟩
    exact ⟨cred, ⟨hmem, hsec⟩, hcid⟩

theorem nodup_get_sector_competences (m : CompetenceMapper) (sector : String) :
    (get_sector_competences m sector).Nodup :=
  nodup_foldl_update _ List.nodup_nil

/-- Distinct level values have distinct Python enum names. -/
theorem level_name_injective :
    ∀ l1 l2 : CompetenceLevel, l1.name = l2.name → l1 = l2 := by
  intro l1 l2
  cases l1 <;> cases l2 <;> simp [CompetenceLevel.name]

/-- Every level value occurs in the Python iteration order list. -/
theorem level_mem_all : ∀ level : CompetenceLevel, level ∈ CompetenceLevel.all := by
  intro level
  cases level <;> simp [CompetenceLevel.all]

/-- Computing `mergeSort` on a two-element list. -/
theorem mergeSort_pair (a b : α) (le : α → α → Bool) :
    List.mergeSort [a, b] le = if le a b then [a, b] else [b, a] := by
  rw [List.mergeSort]
  simp [List.splitInTwo, List.merge]

/-- C4: for every mapper state and sector string, `get_sector_competences`
returns (duplicate-free) exactly the union of the competence-id lists of the
stored credentials whose sector matches case-insensitively, is empty when no
credential matches, and coincides on `"OFFSHORE-ENERGY"` and
`"offshore-energy"`. -/
theorem sector_competences_spec :
    (∀ (m : CompetenceMapper) (sector : String),
      (∀ cid, cid ∈ get_sector_competences m sector ↔
          ∃ cred ∈ dictValues m.credentials,
            pyLower cred.sector = pyLower sector ∧ cid ∈ cred.competences)
      ∧ (get_sector_competences m sector).Nodup
      ∧ ((∀ cred ∈ dictValues m.credentials, pyLower cred.sector ≠ pyLower sector) →
          get_sector_competences m sector = []))
    ∧ (∀ m : CompetenceMapper,
        get_sector_competences m "OFFSHORE-ENERGY" =
          get_sector_competences m "offshore-energy") := by
  constructor
  · intro m sector
    refine ⟨fun cid => mem_get_sector_competences, nodup_get_sector_competences m sector, ?_⟩
    intro h
    unfold get_sector_competences
    have hfil : (dictValues m.credentials).filter
        (fun cred => decide (pyLower cred.sector = pyLower sector)) = [] := by
      rw [List.filter_eq_nil_iff]
      intro cred hcred
      simpa using h cred hcred
    rw [hfil]
    rfl
  · intro m
    unfold get_sector_competences
    rw [show pyLower "OFFSHORE-ENERGY" = pyLower "offshore-energy" from by decide]

/-- Witness for C4: the seed state stores no credential in sector
`"tourism"`, so the sector union is empty. -/
theorem sector_competences_spec_witness :
    get_sector_competences seedMapper "tourism" = [] :=
  (sector_competences_spec.1 seedMapper "tourism").2.2 (by decide)

/-! Helper lemmas about dictionary insertion. -/

theorem find?_dict_overwrite (l : List (String × α)) (k : String) (v : α)
    (h : ∃ p ∈ l, p.1 = k) :
    (l.map (fun p => if p.1 = k then (k, v) else p)).find?
      (fun p => decide (p.1 = k)) = some (k, v) := by
  induction l with
  | nil => simp at h
  | cons p t ih =>
    by_cases hp : p.1 = k
    · simp [List.find?_cons, if_pos hp]
    · have hd : (decide (p.1 = k)) = false := by simp [hp]
      simp only [List.map_cons, if_neg hp, List.find?_cons, hd]
      obtain ⟨q, hq, hqk⟩ := h
      rcases List.mem_cons.mp hq with rfl | hqt
      · exact absurd hqk hp
      · exact ih ⟨q, hqt, hqk⟩

theorem find?_dict_append (l : List (String × α)) (k : String) (v : α)
    (h : ∀ p ∈ l, p.1 ≠ k) :
    (l ++ [(k, v)]).find? (fun p => decide (p.1 = k)) = some (k, v) := by
  induction l with
  | nil => simp
  | cons p t ih =>
    have hd : (decide (p.1 = k)) = false := by
      simp [h p (List.mem_cons_self p t)]
    simp only [List.cons_append, List.find?_cons, hd]
    exact ih (fun q hq => h q (List.mem_cons_of_mem p hq))

/-- C5: immediately after `add_competence`, the store maps the new id to the
new competence; an existing key is overwritten without growing the store,
and a fresh key grows the store by exactly one entry. -/
theorem add_competence_spec :
    ∀ (m : CompetenceMapper) (c : Competence),
      dictGet (add_competence m c).competences c.id = some c
      ∧ ((∃ p ∈ m.competences, p.1 = c.id) →
          (add_competence m c).competences.length = m.competences.length)
      ∧ ((¬ ∃ p ∈ m.competences, p.1 = c.id) →
          (add_competence m c).competences.length = m.competences.length + 1) := by
  intro m c
  have hcomp : (add_competence m c).competences = dictInsert m.competences c.id c := rfl
  by_cases h : ∃ p ∈ m.competences, p.1 = c.id
  · have hany : m.competences.any (fun p => decide (p.1 = c.id)) = true := by
      rw [List.any_eq_true]
      obtain ⟨p, hp, hpk⟩ := h
      exact ⟨p, hp, by simpa using hpk⟩
    have hins : dictInsert m.competences c.id c =
        m.competences.map (fun p => if p.1 = c.id then (c.id, c) else p) := by
      unfold dictInsert
      rw [if_pos hany]
    refine ⟨?_, fun _ => ?_, fun hn => absurd h hn⟩
    · rw [hcomp, hins]
      unfold dictGet
      rw [find?_dict_overwrite m.competences c.id c h]
      rfl
    · rw [hcomp, hins, List.length_map]
  · have hnokey : ∀ p ∈ m.competences, p.1 ≠ c.id := by
      intro p hp hpk
      exact h ⟨p, hp, hpk⟩
    have hany : m.competences.any (fun p => decide (p.1 = c.id)) = false := by
      rw [List.any_eq_false]
      intro p hp
      simp [hnokey p hp]
    have hins : dictInsert m.competences c.id c = m.competences ++ [(c.id, c)] := by
      unfold dictInsert
      rw [if_neg (by simp [hany])]
    refine ⟨?_, fun hx => absurd hx h, fun _ => ?_⟩
    · rw [hcomp, hins]
      unfold dictGet
      rw [find?_dict_append m.competences c.id c hnokey]
      rfl
    · rw [hcomp, hins, List.length_append]
      rfl

/-- Fresh competence with a key already present in the C5 witness state. -/
def c5Overwriting : Competence :=
  { id := "comp_marine_001", name := "Replacement", description := "overwrite",
    axis := .OCEANIC, level := .EXPERT, keywords := [] }

/-- Witness for C5: overwriting the seed competence `comp_marine_001` keeps
the store size and the new value is retrievable under the shared id. -/
theorem add_competence_spec_witness :
    dictGet (add_competence seedMapper c5Overwriting).competences c5Overwriting.id =
        some c5Overwriting
    ∧ (add_competence seedMapper c5Overwriting).competences.length =
        seedMapper.competences.length :=
  ⟨(add_competence_spec seedMapper c5Overwriting).1,
   (add_competence_spec seedMapper c5Overwriting).2.1 (by decide)⟩

/-- Credential whose sector is capitalized, for the case-sensitivity check of
the summary sector set. -/
def credPortsUpper : MicroCredential :=
  { id := "cred_ports_up", title := "Ports Specialist A", competences := [],
    description := "first ports credential", sector := "Ports" }

/-- Credential whose sector is lower-case, differing from `credPortsUpper`
only by case. -/
def credPortsLower : MicroCredential :=
  { id := "cred_ports_low", title := "Ports Specialist B", competences := [],
    description := "second ports credential", sector := "ports" }

/-- Mapper holding two credentials whose sectors differ only by case. -/
def portsMapper : CompetenceMapper :=
  add_credentials (add_credentials { competences := [], credentials := [] }
    credPortsUpper) credPortsLower

/-- C6: the summary has a count entry for all three axis values and all four
level values (zero counts included), reports the store sizes, and collects
the distinct raw sector strings deduplicated case-sensitively, so sectors
`"Ports"` and `"ports"` yield two distinct entries. -/
theorem get_summary_spec :
    (∀ m : CompetenceMapper,
      (get_summary m).competences_by_axis.map (fun e => e.1) =
          BlueDynamicsAxis.all.map BlueDynamicsAxis.name
      ∧ (∀ axis : BlueDynamicsAxis,
          (axis.name, (get_competences_by_axis m axis).length) ∈
            (get_summary m).competences_by_axis)
      ∧ (get_summary m).competences_by_level.map (fun e => e.1) =
          CompetenceLevel.all.map CompetenceLevel.name
      ∧ (∀ level : CompetenceLevel,
          (level.name, (get_competences_by_level m level).length) ∈
            (get_summary m).competences_by_level)
      ∧ (get_summary m).total_competences = (dictValues m.competences).length
      ∧ (get_summary m).total_credentials = (dictValues m.credentials).length
      ∧ (∀ s, s ∈ (get_summary m).sectors ↔
          ∃ cred ∈ dictValues m.credentials, cred.sector = s)
      ∧ (get_summary m).sectors.Nodup)
    ∧ (get_summary portsMapper).sectors = ["Ports", "ports"] := by
  constructor
  · intro m
    refine ⟨?_, ?_, ?_, ?_, ?_, ?_, ?_, ?_⟩
    · simp [get_summary, List.map_map]
    · intro axis
      have hmem : axis ∈ BlueDynamicsAxis.all := by
        cases axis <;> simp [BlueDynamicsAxis.all]
      simpa [get_summary] using
        List.mem_map_of_mem
          (fun a => (BlueDynamicsAxis.name a, (get_competences_by_axis m a).length)) hmem
    · simp [get_summary, List.map_map]
    · intro level
      simpa [get_summary] using
        List.mem_map_of_mem
          (fun l => (CompetenceLevel.name l, (get_competences_by_level m l).length))
          (level_mem_all level)
    · simp [get_summary, dictValues]
    · simp [get_summary, dictValues]
    · intro s
      simp [get_summary, mem_pySetOf, List.mem_map]
    · exact nodup_pySetOf _
  · decide

/-- Counting lemma: the three axis filters partition any competence list. -/
theorem axis_filter_partition (l : List Competence) :
    (l.filter (fun c => decide (c.axis = BlueDynamicsAxis.MARINE))).length +
      ((l.filter (fun c => decide (c.axis = BlueDynamicsAxis.MARITIME))).length +
        (l.filter (fun c => decide (c.axis = BlueDynamicsAxis.OCEANIC))).length) =
      l.length := by
  induction l with
  | nil => rfl
  | cons c t ih =>
    cases hc : c.axis <;> simp [List.filter_cons, hc] <;> omega

/-- Counting lemma: the four level filters partition any competence list. -/
theorem level_filter_partition (l : List Competence) :
    (l.filter (fun c => decide (c.level = CompetenceLevel.FOUNDATIONAL))).length +
      ((l.filter (fun c => decide (c.level = CompetenceLevel.INTERMEDIATE))).length +
        ((l.filter (fun c => decide (c.level = CompetenceLevel.ADVANCED))).length +
          (l.filter (fun c => decide (c.level = CompetenceLevel.EXPERT))).length)) =
      l.length := by
  induction l with
  | nil => rfl
  | cons c t ih =>
    cases hc : c.level <;> simp [List.filter_cons, hc] <;> omega

/-- C10: in every summary, the total competence count equals the sum of the
per-axis counts and also the sum of the per-level counts. -/
theorem summary_counts_partition :
    ∀ m : CompetenceMapper,
      ((get_summary m).competences_by_axis.map (fun e => e.2)).sum =
          (get_summary m).total_competences
      ∧ ((get_summary m).competences_by_level.map (fun e => e.2)).sum =
          (get_summary m).total_competences := by
  intro m
  constructor
  · have h := axis_filter_partition (dictValues m.competences)
    simp only [get_summary, BlueDynamicsAxis.all, List.map_cons, List.map_nil,
      List.sum_cons, List.sum_nil, get_competences_by_axis, dictValues,
      List.length_map] at h ⊢
    omega
  · have h := level_filter_partition (dictValues m.competences)
    simp only [get_summary, CompetenceLevel.all, List.map_cons, List.map_nil,
      List.sum_cons, List.sum_nil, get_competences_by_level, dictValues,
      List.length_map] at h ⊢
    omega

/-- C7: the starting-level argument of `suggest_credential_pathway` has no
influence on the returned list. -/
theorem starting_level_no_influence :
    ∀ (m : CompetenceMapper) (l1 l2 : CompetenceLevel),
      suggest_credential_pathway m l1 = suggest_credential_pathway m l2 :=
  fun _ _ _ => rfl

/-- One read-only query of the mapper, covering every analytical method. -/
inductive MapperQuery where
  | byAxis : BlueDynamicsAxis → MapperQuery
  | byLevel : CompetenceLevel → MapperQuery
  | sectorQuery : String → MapperQuery
  | gapsQuery : List String → String → MapperQuery
  | pathwayQuery : CompetenceLevel → MapperQuery
  | summaryQuery : MapperQuery

/-- The value returned by a read-only query. -/
inductive QueryOutput where
  | comps : List Competence → QueryOutput
  | ids : List String → QueryOutput
  | gaps : GapResult → QueryOutput
  | creds : List MicroCredential → QueryOutput
  | summarized : Summary → QueryOutput
deriving DecidableEq

/-- Run one read method as a state transformer. Each method body in the
source only reads `self` and never assigns to its fields, so the post-state
is the translation of the unchanged `self`. -/
def runQuery (q : MapperQuery) (m : CompetenceMapper) : CompetenceMapper × QueryOutput :=
  match q with
  | .byAxis a => (m, .comps (get_competences_by_axis m a))
  | .byLevel l => (m, .comps (get_competences_by_level m l))
  | .sectorQuery s => (m, .ids (get_sector_competences m s))
  | .gapsQuery av s => (m, .gaps (analyze_competence_gaps m av s))
  | .pathwayQuery l => (m, .creds (suggest_credential_pathway m l))
  | .summaryQuery => (m, .summarized (get_summary m))

/-- C8: every read-only query leaves the mapper state unchanged, and running
the same query again on the resulting state returns the identical value. -/
theorem reads_preserve_state :
    ∀ (q : MapperQuery) (m : CompetenceMapper),
      (runQuery q m).1 = m
      ∧ (runQuery q ((runQuery q m).1)).2 = (runQuery q m).2 := by
  intro q m
  cases q <;> exact ⟨rfl, rfl⟩

/-- The average as claim C1 words it, for comparison with `credAvgLevel`
(this definition follows the claim, not the source): the arithmetic mean of
the ranks of exactly the resolvable references, dangling ids not affecting
the mean, and 0 when no reference resolves. -/
def claimResolvedMean (m : CompetenceMapper) (cred : MicroCredential) : ℚ :=
  if (resolvedLevelRanks m cred).length = 0 then 0
  else (resolvedLevelRanks m cred).sum / ((resolvedLevelRanks m cred).length : ℚ)

/-- Competence of rank 4 used by the C1 counterexample. -/
def cexCompetence : Competence :=
  { id := "comp_expert_cex", name := "Expert Competence", description := "cex",
    axis := .MARINE, level := .EXPERT, keywords := [] }

/-- Credential referencing one stored EXPERT competence and one dangling id. -/
def cexCredential : MicroCredential :=
  { id := "cred_cex", title := "Cex Credential",
    competences := ["comp_expert_cex", "comp_ghost_cex"],
    description := "cex", sector := "cex" }

/-- Mapper state of the C1 counterexample. -/
def cexMapper : CompetenceMapper :=
  add_credentials
    (add_competence { competences := [], credentials := [] } cexCompetence)
    cexCredential

/-- C1 counterexample: with one resolvable EXPERT reference (rank 4) and one
dangling reference, the code divides by the total reference count and
computes 4 / 2 = 2, while the arithmetic mean over exactly the resolvable
references is 4 — the dangling id does affect the average. -/
theorem credAvgLevel_counterexample :
    credAvgLevel cexMapper cexCredential = 2
    ∧ claimResolvedMean cexMapper cexCredential = 4
    ∧ credAvgLevel cexMapper cexCredential ≠ claimResolvedMean cexMapper cexCredential := by
  have h1 : credAvgLevel cexMapper cexCredential = 2 := by
    simp [credAvgLevel, resolvedLevelRanks, cexMapper, add_competence, add_credentials,
      dictInsert, dictGet, cexCredential, cexCompetence, List.find?, CompetenceLevel.value]
    norm_num
  have h2 : claimResolvedMean cexMapper cexCredential = 4 := by
    simp [claimResolvedMean, resolvedLevelRanks, cexMapper, add_competence, add_credentials,
      dictInsert, dictGet, cexCredential, cexCompetence, List.find?, CompetenceLevel.value]
  refine ⟨h1, h2, ?_⟩
  rw [h1, h2]
  norm_num

/-- Rank-or-zero resolution of one referenced id: the stored rank when the id
resolves, 0 for a dangling id. -/
def rankOrZero (m : CompetenceMapper) (cid : String) : ℚ :=
  match dictGet m.competences cid with
  | some c => (c.level.value : ℚ)
  | none => 0

theorem sum_resolved_eq_sum_rankOrZero (m : CompetenceMapper) (l : List String) :
    (l.filterMap (fun cid => (dictGet m.competences cid).map
        (fun c => (c.level.value : ℚ)))).sum = (l.map (rankOrZero m)).sum := by
  induction l with
  | nil => rfl
  | cons cid t ih =>
    cases h : dictGet m.competences cid <;>
      simp [List.filterMap_cons, h, rankOrZero, ih]

/-- C1 amended: the pathway average equals the sum of the ranks of the
resolvable references (each dangling id contributing 0 to the sum) divided by
`max 1` of the TOTAL number of referenced ids — so dangling ids do affect the
mean through the denominator — and a credential none of whose references
resolve gets average 0. -/
theorem credAvgLevel_amended :
    ∀ (m : CompetenceMapper) (cred : MicroCredential),
      credAvgLevel m cred =
        (cred.competences.map (rankOrZero m)).sum / (max 1 cred.competences.length : ℚ)
      ∧ (resolvedLevelRanks m cred = [] → credAvgLevel m cred = 0) := by
  intro m cred
  constructor
  · unfold credAvgLevel resolvedLevelRanks
    rw [sum_resolved_eq_sum_rankOrZero]
  · intro h
    unfold credAvgLevel
    rw [h]
    simp

/-- Credential all of whose references are dangling, for the C1 witness. -/
def ghostCredential : MicroCredential :=
  { id := "cred_ghost", title := "Ghost Credential",
    competences := ["nowhere_a", "nowhere_b"],
    description := "ghost", sector := "cex" }

/-- Witness for C1 (amended): on an empty store every reference dangles and
the computed average is 0. -/
theorem credAvgLevel_amended_witness :
    credAvgLevel { competences := [], credentials := [] } ghostCredential = 0 :=
  (credAvgLevel_amended { competences := [], credentials := [] } ghostCredential).2 rfl

/-! Helper lemmas for the pathway sort comparator. -/

theorem credLe_trans (a b c : MicroCredential × ℚ)
    (h1 : (decide (a.2 ≤ b.2)) = true) (h2 : (decide (b.2 ≤ c.2)) = true) :
    (decide (a.2 ≤ c.2)) = true := by
  simp only [decide_eq_true_eq] at h1 h2 ⊢
  exact le_trans h1 h2

theorem credLe_total (a b : MicroCredential × ℚ) :
    ((decide (a.2 ≤ b.2)) || (decide (b.2 ≤ a.2))) = true := by
  simp only [Bool.or_eq_true, decide_eq_true_eq]
  exact le_total a.2 b.2

theorem credentialLevels_map_fst (m : CompetenceMapper) :
    (credentialLevels m).map (fun p => p.1) = dictValues m.credentials := by
  unfold credentialLevels
  rw [List.map_map]
  have hid : ((fun p : MicroCredential × ℚ => p.1) ∘
      fun cred => (cred, credAvgLevel m cred)) = id := rfl
  rw [hid, List.map_id]

/-- C2: the pathway is a permutation of the stored credentials, weakly
ascending in computed average level, stable (a pair appearing in insertion
order with equal averages stays in that order), and on the seed data it
returns `[cred_offshore_001, cred_ocean_gov_001]`. -/
theorem pathway_spec :
    (∀ (m : CompetenceMapper) (sl : CompetenceLevel),
      (suggest_credential_pathway m sl).Perm (dictValues m.credentials)
      ∧ (suggest_credential_pathway m sl).Pairwise
          (fun a b => credAvgLevel m a ≤ credAvgLevel m b)
      ∧ (∀ a b : MicroCredential,
          List.Sublist [a, b] (dictValues m.credentials) →
          credAvgLevel m a = credAvgLevel m b →
          List.Sublist [a, b] (suggest_credential_pathway m sl)))
    ∧ suggest_credential_pathway seedMapper CompetenceLevel.FOUNDATIONAL =
        [credOffshore001, credOceanGov001] := by
  constructor
  · intro m sl
    refine ⟨?_, ?_, ?_⟩
    · have h1 := List.mergeSort_perm (credentialLevels m) (fun a b => decide (a.2 ≤ b.2))
      have h2 := h1.map (fun p : MicroCredential × ℚ => p.1)
      rw [credentialLevels_map_fst] at h2
      exact h2
    · have hs := List.sorted_mergeSort credLe_trans credLe_total (credentialLevels m)
      have hmem : ∀ p ∈ (credentialLevels m).mergeSort (fun a b => decide (a.2 ≤ b.2)),
          p.2 = credAvgLevel m p.1 := by
        intro p hp
        have hp2 := List.mem_mergeSort.mp hp
        unfold credentialLevels at hp2
        obtain ⟨c, _, rfl⟩ := List.mem_map.mp hp2
        rfl
      have hpw : ((credentialLevels m).mergeSort (fun a b => decide (a.2 ≤ b.2))).Pairwise
          (fun a b => credAvgLevel m a.1 ≤ credAvgLevel m b.1) := by
        refine List.Pairwise.imp_of_mem ?_ hs
        intro a b ha hb hab
        rw [← hmem a ha, ← hmem b hb]
        simpa using hab
      exact (List.pairwise_map).mpr hpw
    · intro a b hsub heq
      have hsub2 : List.Sublist [(a, credAvgLevel m a), (b, credAvgLevel m b)]
          (credentialLevels m) := by
        have hm := hsub.map (fun c => (c, credAvgLevel m c))
        simpa [credentialLevels] using hm
      have hab : (decide ((a, credAvgLevel m a).2 ≤ (b, credAvgLevel m b).2)) = true := by
        simp [heq]
      have hstep := List.pair_sublist_mergeSort credLe_trans credLe_total hab hsub2
      have hmap := hstep.map (fun p : MicroCredential × ℚ => p.1)
      simpa [suggest_credential_pathway] using hmap
  · have h : credentialLevels seedMapper =
        [(credOffshore001, credAvgLevel seedMapper credOffshore001),
         (credOceanGov001, credAvgLevel seedMapper credOceanGov001)] := rfl
    have h1 : credAvgLevel seedMapper credOffshore001 = 5/2 := by
      simp [credAvgLevel, resolvedLevelRanks, seedMapper, add_competence, add_credentials,
        dictInsert, dictGet, credOffshore001, compMarine001, compMaritime001, compOceanic001,
        List.find?, CompetenceLevel.value]
      norm_num
    have h2 : credAvgLevel seedMapper credOceanGov001 = 3 := by
      simp [credAvgLevel, resolvedLevelRanks, seedMapper, add_competence, add_credentials,
        dictInsert, dictGet, credOceanGov001, compMarine001, compMaritime001, compOceanic001,
        List.find?, CompetenceLevel.value]
    unfold suggest_credential_pathway
    rw [h, h1, h2, mergeSort_pair]
    norm_num

/-- Competence shared by the two C2 witness credentials. -/
def wComp : Competence :=
  { id := "w_comp", name := "Shared", description := "w", axis := .MARITIME,
    level := .INTERMEDIATE, keywords := [] }

/-- First C2 witness credential (average 2). -/
def wCredA : MicroCredential :=
  { id := "w_a", title := "WA", competences := ["w_comp"], description := "w",
    sector := "w" }

/-- Second C2 witness credential, same average as the first. -/
def wCredB : MicroCredential :=
  { id := "w_b", title := "WB", competences := ["w_comp"], description := "w",
    sector := "w" }

/-- Mapper with two equal-average credentials in insertion order A, B. -/
def wMapper : CompetenceMapper :=
  add_credentials (add_credentials
    (add_competence { competences := [], credentials := [] } wComp) wCredA) wCredB

/-- Witness for C2: two equal-average credentials keep their insertion order
in the suggested pathway. -/
theorem pathway_spec_witness :
    List.Sublist [wCredA, wCredB]
      (suggest_credential_pathway wMapper CompetenceLevel.FOUNDATIONAL) :=
  (pathway_spec.1 wMapper CompetenceLevel.FOUNDATIONAL).2.2 wCredA wCredB
    (List.Sublist.refl _) rfl

/-! Helper definitions restating `analyze_competence_gaps` structurally. -/

/-- The membership-and-level test used in the `by_level` loop. -/
def levelPred (m : CompetenceMapper) (level : CompetenceLevel) : String → Bool :=
  fun cid =>
    match dictGet m.competences cid with
    | some c => decide (c.level = level)
    | none => false

/-- The `missing` set of the gap analysis. -/
def missingOf (m : CompetenceMapper) (avail : List String) (sector : String) : List String :=
  (pySetOf (get_sector_competences m sector)).filter
    (fun cid => decide (¬ cid ∈ pySetOf avail))

theorem analyze_gaps_eq (m : CompetenceMapper) (avail : List String) (sector : String) :
    analyze_competence_gaps m avail sector =
      { available := (pySetOf avail).filter
          (fun cid => decide (cid ∈ pySetOf (get_sector_competences m sector))),
        missing := missingOf m avail sector,
        by_level := CompetenceLevel.all.filterMap (fun level =>
          if (missingOf m avail sector).filter (levelPred m level) = [] then none
          else some (level.name, (missingOf m avail sector).filter (levelPred m level))) } :=
  rfl

theorem levelPred_eq_true {m : CompetenceMapper} {level : CompetenceLevel} {cid : String} :
    levelPred m level cid = true ↔
      ∃ c, dictGet m.competences cid = some c ∧ c.level = level := by
  unfold levelPred
  cases h : dictGet m.competences cid <;> simp [h]

/-- C3: the gap analysis returns as `available` the required ids the caller
holds, as `missing` the required ids the caller lacks, and as `by_level` a
mapping from level name to the missing ids that resolve in the store at that
level, omitting levels with no such id. -/
theorem analyze_gaps_spec :
    ∀ (m : CompetenceMapper) (avail : List String) (sector : String),
      (∀ cid, cid ∈ (analyze_competence_gaps m avail sector).available ↔
          cid ∈ avail ∧ cid ∈ get_sector_competences m sector)
      ∧ (∀ cid, cid ∈ (analyze_competence_gaps m avail sector).missing ↔
          cid ∈ get_sector_competences m sector ∧ ¬ cid ∈ avail)
      ∧ (∀ (level : CompetenceLevel) (cid : String),
          (∃ entry ∈ (analyze_competence_gaps m avail sector).by_level,
              entry.1 = level.name ∧ cid ∈ entry.2) ↔
            (cid ∈ (analyze_competence_gaps m avail sector).missing ∧
              ∃ c, dictGet m.competences cid = some c ∧ c.level = level))
      ∧ (∀ entry ∈ (analyze_competence_gaps m avail sector).by_level, entry.2 ≠ []) := by
  intro m avail sector
  refine ⟨?_, ?_, ?_, ?_⟩
  · intro cid
    rw [analyze_gaps_eq]
    simp [List.mem_filter, mem_pySetOf]
  · intro cid
    rw [analyze_gaps_eq]
    show cid ∈ missingOf m avail sector ↔ _
    unfold missingOf
    simp [List.mem_filter, mem_pySetOf]
  · intro level cid
    rw [analyze_gaps_eq]
    constructor
    · rintro ⟨entry, hmem, hname, hcid⟩
      rw [List.mem_filterMap] at hmem
      obtain ⟨lvl, hlvl, hf⟩ := hmem
      by_cases hemp : (missingOf m avail sector).filter (levelPred m lvl) = []
      · rw [if_pos hemp] at hf
        cases hf
      · rw [if_neg hemp] at hf
        have hentry := Option.some.inj hf
        rw [← hentry] at hname hcid
        have hlvleq : lvl = level := level_name_injective lvl level hname
        subst hlvleq
        rw [List.mem_filter] at hcid
        exact ⟨hcid.1, levelPred_eq_true.mp hcid.2⟩
    · rintro ⟨hmiss, c, hget, hlevel⟩
      have hmemfil : cid ∈ (missingOf m avail sector).filter (levelPred m level) := by
        rw [List.mem_filter]
        exact ⟨hmiss, levelPred_eq_true.mpr ⟨c, hget, hlevel⟩⟩
      have hne : (missingOf m avail sector).filter (levelPred m level) ≠ [] :=
        List.ne_nil_of_mem hmemfil
      refine ⟨(level.name, (missingOf m avail sector).filter (levelPred m level)),
        ?_, rfl, hmemfil⟩
      rw [List.mem_filterMap]
      exact ⟨level, level_mem_all level, by rw [if_neg hne]⟩
  · intro entry hmem
    rw [analyze_gaps_eq] at hmem
    rw [List.mem_filterMap] at hmem
    obtain ⟨lvl, _, hf⟩ := hmem
    by_cases hemp : (missingOf m avail sector).filter (levelPred m lvl) = []
    · rw [if_pos hemp] at hf
      cases hf
    · rw [if_neg hemp] at hf
      have hentry := Option.some.inj hf
      rw [← hentry]
      exact hemp

/-- Witness for C3: the gap analysis of the seed scenario emits a nonempty
ADVANCED entry. -/
theorem analyze_gaps_spec_witness :
    (("ADVANCED", ["comp_maritime_001"]) : String × List String).2 ≠ [] :=
  (analyze_gaps_spec seedMapper ["comp_marine_001"] "offshore-energy").2.2.2
    ("ADVANCED", ["comp_maritime_001"]) (by decide)

/-- C9: the gap analysis depends on the available ids only through their set:
inputs with equal id sets give set-equal `available` and literally equal
`missing` and `by_level`; `available` and `missing` never repeat an id. -/
theorem analyze_gaps_set_extensional :
    (∀ (m : CompetenceMapper) (sector : String) (a1 a2 : List String),
      a1.toFinset = a2.toFinset →
        ((analyze_competence_gaps m a1 sector).available.toFinset =
            (analyze_competence_gaps m a2 sector).available.toFinset
          ∧ (analyze_competence_gaps m a1 sector).missing =
              (analyze_competence_gaps m a2 sector).missing
          ∧ (analyze_competence_gaps m a1 sector).by_level =
              (analyze_competence_gaps m a2 sector).by_level))
    ∧ (∀ (m : CompetenceMapper) (sector : String) (a : List String),
        (analyze_competence_gaps m a sector).available.Nodup
        ∧ (analyze_competence_gaps m a sector).missing.Nodup) := by
  constructor
  · intro m sector a1 a2 hset
    have hmemiff : ∀ x : String, x ∈ pySetOf a1 ↔ x ∈ pySetOf a2 := by
      intro x
      rw [mem_pySetOf, mem_pySetOf, ← List.mem_toFinset, hset, List.mem_toFinset]
    have hmiss : missingOf m a1 sector = missingOf m a2 sector := by
      unfold missingOf
      refine List.filter_congr ?_
      intro x _
      rw [decide_eq_decide]
      exact not_congr (hmemiff x)
    refine ⟨?_, ?_, ?_⟩
    · rw [analyze_gaps_eq, analyze_gaps_eq]
      ext x
      simp only [List.mem_toFinset, List.mem_filter, decide_eq_true_eq]
      exact and_congr (hmemiff x) Iff.rfl
    · rw [analyze_gaps_eq, analyze_gaps_eq]
      exact hmiss
    · rw [analyze_gaps_eq, analyze_gaps_eq]
      rw [hmiss]
  · intro m sector a
    constructor
    · rw [analyze_gaps_eq]
      exact (nodup_pySetOf a).filter _
    · rw [analyze_gaps_eq]
      exact (nodup_pySetOf (get_sector_competences m sector)).filter _

/-- Witness for C9: a duplicated list and its deduplicated permutation have
the same id set and induce the same gap analysis facets on the seed state. -/
theorem analyze_gaps_set_extensional_witness :
    (analyze_competence_gaps seedMapper ["comp_marine_001", "comp_marine_001", "zz"]
        "offshore-energy").available.toFinset =
      (analyze_competence_gaps seedMapper ["zz", "comp_marine_001"]
        "offshore-energy").available.toFinset
    ∧ (analyze_competence_gaps seedMapper ["comp_marine_001", "comp_marine_001", "zz"]
        "offshore-energy").missing =
      (analyze_competence_gaps seedMapper ["zz", "comp_marine_001"]
        "offshore-energy").missing
    ∧ (analyze_competence_gaps seedMapper ["comp_marine_001", "comp_marine_001", "zz"]
        "offshore-energy").by_level =
      (analyze_competence_gaps seedMapper ["zz", "comp_marine_001"]
        "offshore-energy").by_level :=
  analyze_gaps_set_extensional.1 seedMapper "offshore-energy"
    ["comp_marine_001", "comp_marine_001", "zz"] ["zz", "comp_marine_001"] (by decide)

end Morskamary
